import Mathlib

/-!
Verification of the green-params typed parameter registry
(`src/green/params/common.h`, namespace `green::params`).

The registry core (class `params`, class `params_item`, `get_argc_argv`,
`check_redefiniton`, `build_internal`) is translated here definition by
definition.  The external collaborators (the vendored `argparse` entry/parser
and the INI reader, which live in `libs/` and are not part of the core
sources) are modelled from the specified interface the core consumes; every
such definition carries a doc comment explaining what is modelled.
-/

set_option maxRecDepth 4000

namespace GreenParams

/-- Type tags standing for the `std::type_index` a parameter is declared
with.  The repository instantiates `define<T>` at `int`, `long`,
`std::string`, `std::vector<std::string>` and enumeration types. -/
inductive Ty where
  | tInt
  | tLong
  | tString
  | tVecString
  | tEnum
  deriving DecidableEq, Repr

/-- The error taxonomy of `except.h`: one constructor per exception class. -/
inductive PError where
  | emptyName
  | redefinition
  | strParse
  | iniFile
  | notFound
  | valueError
  | convertError
  | notParsed
  | notBuilt
  deriving DecidableEq, Repr

/-- Modelled from the spec: an `argparse::Entry` value cell (vendored in
`libs/argparse`, outside the core sources).  It stores the optional raw
textual value, the optional default text, and a parser-detected error.
Following the repository docstring of `params::is_set` ("true if the value
has been set by user either in command line or in parameter file"), a cell
counts as set exactly when a raw value is present. -/
structure Entry where
  value : Option String := none
  defaultVal : Option String := none
  error : Option String := none
  deriving DecidableEq, Repr

namespace Entry

/-- Modelled from the spec: `Entry::is_set` — a raw value was stored, by
command-line parsing or by the INI merge. -/
def isSet (e : Entry) : Bool := e.value.isSome

/-- Modelled from the spec: `Entry::has_value` — the cell has a concrete
value, set or default. -/
def hasValue (e : Entry) : Bool := e.value.isSome || e.defaultVal.isSome

/-- Modelled from the spec: `Entry::string_value` — the textual
representation in precedence order, set raw value first, else default. -/
def stringValue (e : Entry) : Option String :=
  e.value.orElse (fun _ => e.defaultVal)

/-- Modelled from the spec: `Entry::update_value` — store the text as the
cell's raw value; per the spec's write-access contract this clears any prior
error flag. -/
def updateValue (e : Entry) (v : String) : Entry :=
  { e with value := some v, error := none }

/-- Modelled from the spec: `Entry::clean_error`. -/
def cleanError (e : Entry) : Entry := { e with error := none }

/-- Modelled from the spec: `Entry::set_default`. -/
def setDefault (e : Entry) (v : String) : Entry := { e with defaultVal := some v }

/-- Modelled from the spec: `Entry::has_error`. -/
def hasError (e : Entry) : Bool := e.error.isSome

end Entry

/-- `class params_item` (common.h lines 90–217): primary name, alias list,
a pointer (here: arena index) to the shared `argparse::Entry` cell, the
declared type, and the optionality flag. -/
structure ParamsItem where
  name : String
  aka : List String
  entryId : Nat
  argumentType : Ty
  optional : Bool
  deriving DecidableEq, Repr

/-- `class params` (common.h lines 222–453).  `argparse::Entry*` pointers
become indices into the `entries` arena, `std::shared_ptr<params_item>`
becomes an index into the `items` arena.  `parametersMap` is the
name → item index (`parameters_map_`), `paramsSet` the set of distinct
items (`params_set_`), `helpRequested` the help flag the `args_` layer
records during parsing, `inifileId` the reserved INI-path cell. -/
structure Params where
  entries : List Entry
  parametersMap : List (String × Nat) := []
  items : List ParamsItem := []
  paramsSet : List Nat := []
  parsed : Bool := false
  built : Bool := false
  helpRequested : Bool := false
  inifileId : Nat := 0
  deriving DecidableEq, Repr

/-- The `params` constructor: registers the positional INI-file cell with
default `""` (common.h lines 229–231). -/
def initParams : Params := { entries := [{ defaultVal := some "" }] }

/-- Look up the item index bound to a name in `parameters_map_`. -/
def lookupId (R : Params) (n : String) : Option Nat :=
  List.lookup n R.parametersMap

/-- Dereference `parameters_map_[n]`: the `params_item` bound to `n`. -/
def itemOf (R : Params) (n : String) : Option ParamsItem :=
  (lookupId R n).bind (fun i => R.items[i]?)

/-- The entry cell of an item, with an inert default for the (unreachable in
well-formed states) out-of-range case. -/
def entryD (R : Params) (it : ParamsItem) : Entry :=
  (R.entries[it.entryId]?).getD {}

/-- `params::check_redefiniton` (common.h lines 432–452): walk the candidate
name list; an existing name whose declared type differs from the requested
one raises a redefinition error; two existing names bound to different
cells raise a redefinition error; unregistered names are collected in order.
The accumulator `p` is the first existing name's cell, `nullptr` as `none`. -/
def checkRedefinition (R : Params) (T : Ty) :
    List String → Option Nat → Except PError (List String × Option Nat)
  | [], p => .ok ([], p)
  | n :: rest, p =>
    match itemOf R n with
    | none => (checkRedefinition R T rest p).map (fun r => (n :: r.1, r.2))
    | some it =>
      if it.argumentType ≠ T then .error .redefinition
      else
        match p with
        | none => checkRedefinition R T rest (some it.entryId)
        | some pid =>
          if it.entryId ≠ pid then .error .redefinition
          else checkRedefinition R T rest (some pid)

/-- Modelled from the spec: `argparse::split` (vendored in `libs/`), which
splits a requested name on the alias delimiter `,` into the candidate name
list, primary name first. -/
def splitCommaChars : List Char → List (List Char)
  | [] => [[]]
  | c :: cs =>
    if c = ',' then [] :: splitCommaChars cs
    else (c :: (splitCommaChars cs).headD []) :: (splitCommaChars cs).tail

/-- Modelled from the spec: `argparse::split` on strings. -/
def split (name : String) : List String :=
  (splitCommaChars name.data).map String.mk

/-- The decimal digit character for `n < 10`. -/
def digitChar (n : Nat) : Char := Char.ofNat (48 + n)

/-- Decimal rendering of a natural number, least significant digit last. -/
def natToChars (n : Nat) : List Char :=
  if _h : n < 10 then [digitChar n]
  else natToChars (n / 10) ++ [digitChar (n % 10)]
  decreasing_by
    exact Nat.div_lt_self (Nat.pos_of_ne_zero (by omega)) (by omega)

/-- Modelled from the spec: the textual serialization `argparse::toString`
produces for integral values. -/
def intToString (i : Int) : String :=
  if i < 0 then String.mk ('-' :: natToChars i.natAbs)
  else String.mk (natToChars i.natAbs)

/-- Numeric value of a decimal digit character. -/
def digitVal (c : Char) : Option Nat :=
  if c.isDigit then some (c.toNat - 48) else none

/-- Accumulating decimal parser over a character list. -/
def parseNatAux (acc : Nat) : List Char → Option Nat
  | [] => some acc
  | c :: cs =>
    match digitVal c with
    | some d => parseNatAux (10 * acc + d) cs
    | none => none

/-- Modelled from the spec: the standard textual parse of a natural number;
non-numeric text fails. -/
def parseNatChars (cs : List Char) : Option Nat :=
  if cs.isEmpty then none else parseNatAux 0 cs

/-- Modelled from the spec: the standard textual parse of an integer. -/
def parseIntStr (s : String) : Option Int :=
  match s.data with
  | [] => none
  | c :: rest =>
    if c = '-' then (parseNatChars rest).map (fun n => -(n : Int))
    else (parseNatChars (c :: rest)).map (fun n => (n : Int))

/-- Join character-level tokens with the fixed `,` delimiter. -/
def joinCommaChars : List (List Char) → List Char
  | [] => []
  | [x] => x
  | x :: y :: r => x ++ ',' :: joinCommaChars (y :: r)

/-- Strip leading and trailing spaces from a token. -/
def trimChars (cs : List Char) : List Char :=
  ((cs.dropWhile (· = ' ')).reverse.dropWhile (· = ' ')).reverse

/-- A typed parameter value of one of the declared types. -/
inductive Val where
  | vInt (i : Int)
  | vLong (i : Int)
  | vStr (s : String)
  | vVecStr (l : List String)
  | vEnum (s : String)
  deriving DecidableEq, Repr

/-- The declared type a value belongs to. -/
def valTy : Val → Ty
  | .vInt _ => .tInt
  | .vLong _ => .tLong
  | .vStr _ => .tString
  | .vVecStr _ => .tVecString
  | .vEnum _ => .tEnum

/-- Modelled from the spec: `argparse::toString`.  Integral values render
in decimal, strings are the identity, enumeration values render as their
name, and a sequence is supplied/rendered as one comma-joined token. -/
def serializeVal : Val → String
  | .vInt i => intToString i
  | .vLong i => intToString i
  | .vStr s => s
  | .vEnum s => s
  | .vVecStr l => String.mk (joinCommaChars (l.map String.data))

/-- The value-initialized `T ret` the conversion operator returns when the
cell has no textual value at all (common.h lines 123–134). -/
def defaultOfTy : Ty → Val
  | .tInt => .vInt 0
  | .tLong => .vLong 0
  | .tString => .vStr ""
  | .tVecString => .vVecStr []
  | .tEnum => .vEnum ""

/-- Modelled from the spec: `argparse::ConvertType<T>::convert` — numeric
targets do a standard textual parse and fail on non-numeric text, the string
target is the identity, a sequence target splits the text on `,` into
trimmed tokens, and an enumeration target resolves the textual name. -/
def convertVal : Ty → String → Except PError Val
  | .tInt, s =>
    match parseIntStr s with
    | some i => .ok (.vInt i)
    | none => .error .convertError
  | .tLong, s =>
    match parseIntStr s with
    | some i => .ok (.vLong i)
    | none => .error .convertError
  | .tString, s => .ok (.vStr s)
  | .tEnum, s => .ok (.vEnum s)
  | .tVecString, s =>
    .ok (.vVecStr ((splitCommaChars s.data).map (fun cs => String.mk (trimChars cs))))

/-- The first candidate name already present in `parameters_map_`, together
with its item (the merge loop of `params::define`, common.h lines 256–262). -/
def findFirstRegistered (R : Params) : List String → Option (Nat × ParamsItem)
  | [] => none
  | n :: rest =>
    match lookupId R n with
    | some i =>
      match R.items[i]? with
      | some it => some (i, it)
      | none => findFirstRegistered R rest
    | none => findFirstRegistered R rest

/-- `parameters_map_[n] = ptr`: insert-or-assign on the name index. -/
def mapAssign (m : List (String × Nat)) (n : String) (i : Nat) : List (String × Nat) :=
  if m.any (fun b => b.1 == n) then m.map (fun b => if b.1 == n then (n, i) else b)
  else m ++ [(n, i)]

/-- `params_set_.insert ptr`. -/
def insertSet (s : List Nat) (i : Nat) : List Nat :=
  if i ∈ s then s else s ++ [i]

/-- Apply an optional default to a cell (`entry->set_default(...)`,
common.h line 251). -/
def applyDefault (e : Entry) : Option Val → Entry
  | some v => e.setDefault (serializeVal v)
  | none => e

/-- `params::define<T>` (common.h lines 241–272).  An empty name is
rejected; the candidate list is checked by `check_redefiniton`; a fresh
definition allocates a new cell and a new item binding every candidate
name; a merge reuses the first existing name's item, upgrades its
optionality if this call supplies a default, extends its alias list with
the new names and binds them; the set of distinct items is updated and the
registry is marked as needing a rebuild. -/
def define (R : Params) (T : Ty) (name : String) (_descr : String)
    (defaultValue : Option Val) : Except PError Params :=
  if name = "" then .error .emptyName
  else
    match checkRedefinition R T (split name) none with
    | .error e => .error e
    | .ok (newNames, _p) =>
      match findFirstRegistered R (split name) with
      | none =>
        let eid := R.entries.length
        let e1 := applyDefault (Entry.cleanError {}) defaultValue
        let itemId := R.items.length
        let item : ParamsItem :=
          { name := (split name).headD "", aka := (split name).tail,
            entryId := eid, argumentType := T, optional := e1.hasValue }
        .ok { R with
              built := false,
              entries := R.entries ++ [e1],
              items := R.items ++ [item],
              parametersMap := newNames.foldl (fun m n => mapAssign m n itemId) R.parametersMap,
              paramsSet := insertSet R.paramsSet itemId }
      | some (itemId, it) =>
        let entries :=
          match R.entries[it.entryId]? with
          | some e => R.entries.set it.entryId (applyDefault e.cleanError defaultValue)
          | none => R.entries
        let item' := { it with optional := it.optional || defaultValue.isSome,
                               aka := it.aka ++ newNames }
        .ok { R with
              built := false,
              entries := entries,
              items := R.items.set itemId item',
              parametersMap := newNames.foldl (fun m n => mapAssign m n itemId) R.parametersMap,
              paramsSet := insertSet R.paramsSet itemId }

/-- Modelled from the spec: an INI document, addressable by a
`section:key` path (the interface `IniDocument.get(path) -> Option<string>`
the core consumes). -/
abbrev IniDoc := List (String × String)

/-- Modelled from the spec: the file system seen by `build` — which paths
exist and which INI document loading them yields. -/
abbrev Fs := List (String × IniDoc)

/-- The key looked up in the INI document: every `.` of the registered name
replaced by `:` (common.h lines 418–419). -/
def iniKey (n : String) : String :=
  String.mk (n.data.map (fun c => if c = '.' then ':' else c))

/-- The reserved INI-path cell. -/
def inifileEntry (R : Params) : Entry :=
  (R.entries[R.inifileId]?).getD {}

/-- `inifile_->string_value().value()` — the textual INI path. -/
def iniPathValue (R : Params) : String :=
  ((inifileEntry R).stringValue).getD ""

/-- One iteration of the INI-merge loop of `build_internal` (common.h
lines 415–424): skip the binding when its cell is already set, otherwise
query the document at the binding's key and store a valid value via
`params_item::update_entry` (`clean_error` then `update_value`). -/
def mergeStep (items : List ParamsItem) (doc : IniDoc)
    (entries : List Entry) (b : String × Nat) : List Entry :=
  match items[b.2]? with
  | none => entries
  | some it =>
    match entries[it.entryId]? with
    | none => entries
    | some e =>
      if e.isSet then entries
      else
        match List.lookup (iniKey b.1) doc with
        | some v => entries.set it.entryId (e.cleanError.updateValue v)
        | none => entries

/-- The whole INI-merge loop over `parameters_map_`. -/
def iniMerge (R : Params) (doc : IniDoc) : List Entry :=
  R.parametersMap.foldl (mergeStep R.items doc) R.entries

/-- `params::build_internal` (common.h lines 408–431): short-circuit when
the parser layer signals a help request; with a non-empty INI path, load
the file and merge it into unset cells when it exists, raise the INI-file
error when it does not; finally mark the registry built.  The second
component is the returned help flag. -/
def buildInternal (fs : Fs) (R : Params) : Except PError (Params × Bool) :=
  if R.helpRequested then .ok (R, true)
  else
    if (inifileEntry R).hasValue ∧ iniPathValue R ≠ "" then
      match List.lookup (iniPathValue R) fs with
      | some doc => .ok ({ R with entries := iniMerge R doc, built := true }, false)
      | none => .error .iniFile
    else .ok ({ R with built := true }, false)

/-- `params::build`. -/
def build (fs : Fs) (R : Params) : Except PError (Params × Bool) :=
  buildInternal fs R

/-- The shared tail of both subscript operators (common.h lines 290–300 and
313–323): unknown names are not-found errors; a non-optional never-set cell
or a cell carrying a parser-detected error is a value error; otherwise the
item is returned for conversion. -/
def accessChecks (R : Params) (n : String) : Except PError ParamsItem :=
  match itemOf R n with
  | none => .error .notFound
  | some it =>
    let e := entryD R it
    if (!it.optional && !e.isSet) || e.hasError then .error .valueError
    else .ok it

/-- The mutable `params::operator[]` (common.h lines 285–301): the
debug-only not-parsed guard, an implicit `build()` when not yet built, then
the shared checks.  `debug` is true when `NDEBUG` is not defined. -/
def accessMut (debug : Bool) (fs : Fs) (R : Params) (n : String) :
    Except PError (Params × ParamsItem) :=
  if debug && !R.parsed then .error .notParsed
  else
    (if !R.built then (buildInternal fs R).map (fun p => p.1) else .ok R).bind
      (fun R' => (accessChecks R' n).map (fun it => (R', it)))

/-- The const `params::operator[]` (common.h lines 308–324): debug-only
not-parsed and not-built guards, never an implicit build (the function has
no access to the file system at all), then the shared checks. -/
def accessConst (debug : Bool) (R : Params) (n : String) : Except PError ParamsItem :=
  if debug && !R.parsed then .error .notParsed
  else if debug && !R.built then .error .notBuilt
  else accessChecks R n

/-- `params::print` (common.h lines 376–383), up to the console output:
debug-only not-parsed guard, implicit build when not yet built. -/
def printCall (debug : Bool) (fs : Fs) (R : Params) : Except PError Params :=
  if debug && !R.parsed then .error .notParsed
  else if !R.built then (buildInternal fs R).map (fun p => p.1)
  else .ok R

/-- `params::help` (common.h lines 388–395), up to the console output. -/
def helpCall (debug : Bool) (fs : Fs) (R : Params) : Except PError Params :=
  if debug && !R.parsed then .error .notParsed
  else if !R.built then (buildInternal fs R).map (fun p => p.1)
  else .ok R

/-- `params::is_set` (common.h lines 333–338): false for unknown names,
otherwise the cell's set flag; no lifecycle guard, no implicit build. -/
def isSetQuery (R : Params) (n : String) : Bool :=
  match itemOf R n with
  | none => false
  | some it => (entryD R it).isSet

/-- `params_item::operator=` (common.h lines 153–157): re-serialize the
value and store it as the cell's raw value via `Entry::update_value`. -/
def assignVal (R : Params) (it : ParamsItem) (v : Val) : Params :=
  { R with entries :=
      match R.entries[it.entryId]? with
      | some e => R.entries.set it.entryId (e.updateValue (serializeVal v))
      | none => R.entries }

/-- `params_item::operator T` (common.h lines 117–135) at a requested type:
the stored textual value (set raw value first, else default) is converted
to the requested type; with no textual value at all a value-initialized
`T` is returned.  The declared-type fast path reads the entry's typed
value, which reflects the same stored text. -/
def readVal (R : Params) (it : ParamsItem) (T : Ty) : Except PError Val :=
  match (entryD R it).stringValue with
  | some s => convertVal T s
  | none => .ok (defaultOfTy T)

/-- The double-quote character. -/
def dq : Char := Char.ofNat 34

/-- The single-quote character. -/
def sq : Char := Char.ofNat 39

/-- The scanning state of `get_argc_argv` (common.h lines 19–51): completed
tokens (spans already terminated by a written `'\0'`), the currently open
token span (`none` while sitting between a terminator and the next split
position), and the `in_squote` / `in_dquote` / `in_space` flags. -/
structure TokState where
  acc : List (List Char)
  cur : Option (List Char)
  inS : Bool
  inD : Bool
  inSpace : Bool
  deriving DecidableEq, Repr

/-- Append a character to the open token span, if any. -/
def pushC (o : Option (List Char)) (c : Char) : Option (List Char) :=
  o.map (fun t => t ++ [c])

/-- One iteration of the scanning loop of `get_argc_argv`: a non-space
character after a terminated span opens a new token at this position; a
double quote toggles `in_dquote`, a single quote toggles `in_squote` (both
remain in the buffer, hence in the token); an unquoted space outside a
space run is overwritten by `'\0'`, terminating the current token; all
other characters stay in place. -/
def tokStep (st : TokState) (c : Char) : TokState :=
  let st := if c ≠ ' ' && st.inSpace then { st with cur := some [], inSpace := false } else st
  if c = dq then { st with inD := !st.inD, cur := pushC st.cur c }
  else if c = sq then { st with inS := !st.inS, cur := pushC st.cur c }
  else if c = ' ' && !st.inD && !st.inS && !st.inSpace then
    { st with acc := st.acc ++ [st.cur.getD []], cur := none, inSpace := true }
  else { st with cur := pushC st.cur c }

/-- Run the scanning loop over the characters after the first. -/
def tokFold (st : TokState) (cs : List Char) : TokState :=
  cs.foldl tokStep st

/-- The scanner's start state: the first split is `&str[0]`, so the first
token opens at character 0 without that character being examined. -/
def tokStart (cs : List Char) : TokState :=
  match cs with
  | [] => ⟨[], some [], false, false, false⟩
  | c :: _ => ⟨[], some [c], false, false, false⟩

/-- The token list a final scanner state denotes. -/
def tokensOf (st : TokState) : List String :=
  (st.acc ++ (match st.cur with | some t => [t] | none => [])).map String.mk

/-- `get_argc_argv` (common.h lines 19–51): scan the string, raise the
string-parse error when a quote of either kind is still open at the end,
otherwise return the split token sequence (the `argc`/`argv` pair). -/
def getArgcArgv (s : String) : Except PError (List String) :=
  if (tokFold (tokStart s.data) s.data.tail).inS
      || (tokFold (tokStart s.data) s.data.tail).inD then
    .error .strParse
  else .ok (tokensOf (tokFold (tokStart s.data) s.data.tail))

/-- `tokens.any (· == "-?")` — Modelled from the spec: the flag parser's
help detection (a `-?` token requests help). -/
def detectHelp (tokens : List String) : Bool :=
  tokens.any (fun t => t == "-?")

/-- Store a raw command-line value into a cell of the arena. -/
def setEntryValue (entries : List Entry) (eid : Nat) (v : String) : List Entry :=
  match entries[eid]? with
  | some e => entries.set eid { e with value := some v }
  | none => entries

/-- Assign a raw command-line value to the cell of a declared name, if the
name is known. -/
def assignTo (R : Params) (nm v : String) : Params :=
  match itemOf R nm with
  | some it => { R with entries := setEntryValue R.entries it.entryId v }
  | none => R

/-- Does the token open a flag (`-name` / `--name`)? -/
def isFlagTok (t : String) : Bool :=
  t.data.headD ' ' = '-'

/-- Split a flag body at its first `=`, when present. -/
def splitAtEq : List Char → Option (List Char × List Char)
  | [] => none
  | c :: rest =>
    if c = '=' then some ([], rest)
    else (splitAtEq rest).map (fun p => (c :: p.1, p.2))

/-- Modelled from the spec: the external flag parser's token walk —
`--name=value` and `--name value` (also with a single dash) store a raw
string value for a declared name, the first bare token not consumed as a
flag's value fills the reserved positional INI-path slot, everything else
is ignored (the core calls the parser with `raise_on_error = false`).  The
walk consumes one token per step; a valueless flag is carried along as
`pending` until its value token arrives or another flag supersedes it. -/
def applyTokens : List String → Params → Bool → Option String → Params
  | [], R, _, _ => R
  | t :: rest, R, posFilled, pending =>
    if t == "-?" then applyTokens rest R posFilled none
    else if isFlagTok t then
      match splitAtEq (t.data.dropWhile (· = '-')) with
      | some (nm, v) => applyTokens rest (assignTo R (String.mk nm) (String.mk v)) posFilled none
      | none => applyTokens rest R posFilled (some (String.mk (t.data.dropWhile (· = '-'))))
    else
      match pending with
      | some nm => applyTokens rest (assignTo R nm t) posFilled none
      | none =>
        if posFilled then applyTokens rest R true none
        else applyTokens rest { R with entries := setEntryValue R.entries R.inifileId t } true none

/-- Modelled from the spec: `args_.parse(argc, argv, false)` — record the
help request and the raw values the flag syntax assigns; the first token is
the program name. -/
def argsParse (R : Params) (tokens : List String) : Params :=
  applyTokens tokens.tail { R with helpRequested := detectHelp tokens } false none

/-- The registry state right after `args_.parse` and `parsed_ = true`. -/
def parsedState (R : Params) (tokens : List String) : Params :=
  { argsParse R tokens with parsed := true }

/-- `params::parse` (common.h lines 358–365): run the flag parser, mark the
registry parsed, return false early when command-line parameters were
supplied but none were defined yet, otherwise build and return the negated
help flag. -/
def parse (fs : Fs) (R : Params) (tokens : List String) : Except PError (Params × Bool) :=
  if (parsedState R tokens).parametersMap.isEmpty && decide (tokens.length > 2) then
    .ok (parsedState R tokens, false)
  else (buildInternal fs (parsedState R tokens)).map (fun p => (p.1, !p.2))

/-- `params::parse` on a single string: tokenize, then parse
(common.h lines 345–349). -/
def parseStr (fs : Fs) (R : Params) (s : String) : Except PError (Params × Bool) :=
  (getArgcArgv s).bind (parse fs R)

/-- The bool `params::parse` returns, `none` when it raises. -/
def parseRet (fs : Fs) (R : Params) (tokens : List String) : Option Bool :=
  match parse fs R tokens with
  | .ok (_, b) => some b
  | .error _ => none

/-- Did the computation succeed? -/
def isOkE {α : Type} : Except PError α → Bool
  | .ok _ => true
  | .error _ => false

theorem isOkE_map {α β : Type} (x : Except PError α) (f : α → β) :
    isOkE (x.map f) = isOkE x := by
  cases x <;> rfl

@[simp] theorem bind_okE {α β : Type} (a : α) (f : α → Except PError β) :
    (Except.ok a).bind f = f a := rfl

@[simp] theorem map_okE {α β : Type} (a : α) (f : α → β) :
    (Except.ok a : Except PError α).map f = .ok (f a) := rfl

@[simp] theorem map_errE {α β : Type} (e : PError) (f : α → β) :
    (Except.error e : Except PError α).map f = .error e := rfl

/-- A sample registry in the `Parsed`/`Built` state: `a` is bound to a cell
set to `"7"`, `b` to a never-set non-optional cell, `c` to an optional cell
carrying a parser-detected error. -/
def sampleReg : Params :=
  { entries := [{ defaultVal := some "" }, { value := some "7" }, {}, { error := some "bad" }],
    parametersMap := [("a", 0), ("b", 1), ("c", 2)],
    items := [⟨"a", [], 1, .tInt, false⟩, ⟨"b", [], 2, .tInt, false⟩, ⟨"c", [], 3, .tInt, true⟩],
    paramsSet := [0, 1, 2],
    parsed := true,
    built := true }

/-- Claim C10: the public `params::is_set` query is a total boolean
function: it returns `false` for a name that is not registered, otherwise
the named cell's set flag, and it performs no lifecycle check and no
implicit build — its result is invariant under the `parsed` and `built`
state flags (indeed `isSetQuery` never raises by construction: it returns
`Bool`, not `Except`). -/
theorem c10_is_set_query (R : Params) (n : String) :
    (itemOf R n = none → isSetQuery R n = false) ∧
    (∀ it, itemOf R n = some it → isSetQuery R n = (entryD R it).isSet) ∧
    (∀ p b, isSetQuery { R with parsed := p, built := b } n = isSetQuery R n) := by
  refine ⟨fun h => ?_, fun it h => ?_, fun p b => ?_⟩
  · simp [isSetQuery, h]
  · simp [isSetQuery, h]
  · simp [isSetQuery, itemOf, lookupId, entryD]

theorem c10_is_set_query_witness :
    isSetQuery sampleReg "zzz" = false ∧
    isSetQuery sampleReg "a" = true ∧
    isSetQuery { sampleReg with parsed := false, built := false } "a" = isSetQuery sampleReg "a" := by
  refine ⟨(c10_is_set_query sampleReg "zzz").1 (by decide), ?_, ?_⟩
  · have h := (c10_is_set_query sampleReg "a").2.1 ⟨"a", [], 1, .tInt, false⟩ (by decide)
    rw [h]; decide
  · exact (c10_is_set_query sampleReg "a").2.2 false false

/-- Claim C3: on a parsed, built registry, typed access through the mutable
subscript operator raises the not-found error for a never-registered name;
the value error for a registered, non-optional, never-set cell; the value
error for a cell carrying a parser-detected syntax error regardless of
optionality; and otherwise returns the entry for conversion. -/
theorem c3_access_classification (fs : Fs) (R : Params) (n : String)
    (hp : R.parsed = true) (hb : R.built = true) :
    (itemOf R n = none → accessMut true fs R n = .error .notFound) ∧
    (∀ it, itemOf R n = some it → (entryD R it).hasError = true →
      accessMut true fs R n = .error .valueError) ∧
    (∀ it, itemOf R n = some it → it.optional = false → (entryD R it).isSet = false →
      accessMut true fs R n = .error .valueError) ∧
    (∀ it, itemOf R n = some it → (entryD R it).hasError = false →
      (it.optional = true ∨ (entryD R it).isSet = true) →
      accessMut true fs R n = .ok (R, it)) := by
  refine ⟨fun h => ?_, fun it h he => ?_, fun it h ho hs => ?_, fun it h he hos => ?_⟩
  · simp [accessMut, hp, hb, accessChecks, h]
  · simp [accessMut, hp, hb, accessChecks, h, he]
  · simp [accessMut, hp, hb, accessChecks, h, ho, hs]
  · rcases hos with ho | hs
    · simp [accessMut, hp, hb, accessChecks, h, he, ho]
    · simp [accessMut, hp, hb, accessChecks, h, he, hs]

theorem c3_access_classification_witness :
    accessMut true [] sampleReg "zzz" = .error .notFound ∧
    accessMut true [] sampleReg "b" = .error .valueError ∧
    accessMut true [] sampleReg "c" = .error .valueError ∧
    accessMut true [] sampleReg "a" = .ok (sampleReg, ⟨"a", [], 1, .tInt, false⟩) := by
  have h := c3_access_classification [] sampleReg
  refine ⟨(h "zzz" rfl rfl).1 (by decide), ?_, ?_, ?_⟩
  · exact (h "b" rfl rfl).2.2.1 ⟨"b", [], 2, .tInt, false⟩ (by decide) rfl (by decide)
  · exact (h "c" rfl rfl).2.1 ⟨"c", [], 3, .tInt, true⟩ (by decide) (by decide)
  · exact (h "a" rfl rfl).2.2.2 ⟨"a", [], 1, .tInt, false⟩ (by decide) (by decide)
      (Or.inr (by decide))

/-- Claim C9: in debug mode (`NDEBUG` not defined), accessing any entry
through either subscript operator, printing, or requesting help before
`parse` has been called raises the not-parsed error; the read-only (const)
subscript additionally raises the not-built error on a parsed but not yet
built registry and never triggers an implicit build (it takes no file
system at all), whereas the mutable subscript on a not-yet-built registry
first runs `build` and then performs the access checks on its result. -/
theorem c9_debug_guards (fs : Fs) (R : Params) (n : String) :
    (R.parsed = false → accessMut true fs R n = .error .notParsed) ∧
    (R.parsed = false → accessConst true R n = .error .notParsed) ∧
    (R.parsed = false → printCall true fs R = .error .notParsed) ∧
    (R.parsed = false → helpCall true fs R = .error .notParsed) ∧
    (R.parsed = true → R.built = false → accessConst true R n = .error .notBuilt) ∧
    (R.parsed = true → R.built = false →
      accessMut true fs R n =
        (buildInternal fs R).bind (fun p => (accessChecks p.1 n).map (fun it => (p.1, it)))) := by
  refine ⟨fun h => ?_, fun h => ?_, fun h => ?_, fun h => ?_,
    fun hp hb => ?_, fun hp hb => ?_⟩
  · simp [accessMut, h]
  · simp [accessConst, h]
  · simp [printCall, h]
  · simp [helpCall, h]
  · simp [accessConst, hp, hb]
  · simp [accessMut, hp, hb]
    cases buildInternal fs R <;> rfl

theorem c9_debug_guards_witness :
    accessMut true [] { sampleReg with parsed := false } "a" = .error .notParsed ∧
    accessConst true { sampleReg with parsed := false } "a" = .error .notParsed ∧
    printCall true [] { sampleReg with parsed := false } = .error .notParsed ∧
    helpCall true [] { sampleReg with parsed := false } = .error .notParsed ∧
    accessConst true { sampleReg with built := false } "a" = .error .notBuilt ∧
    accessMut true [] { sampleReg with built := false } "a" =
      (buildInternal [] { sampleReg with built := false }).bind
        (fun p => (accessChecks p.1 "a").map (fun it => (p.1, it))) := by
  have h1 := c9_debug_guards [] { sampleReg with parsed := false } "a"
  have h2 := c9_debug_guards [] { sampleReg with built := false } "a"
  exact ⟨h1.1 rfl, h1.2.1 rfl, h1.2.2.1 rfl, h1.2.2.2.1 rfl,
    h2.2.2.2.2.1 rfl rfl, h2.2.2.2.2.2 rfl rfl⟩

/-- The registry of the C8 counterexample: the INI-path cell holds the
non-empty path `"NOPE"` of a file that does not exist, and the parser layer
has recorded a help request. -/
def c8Reg : Params :=
  { entries := [{ value := some "NOPE", defaultVal := some "" }], helpRequested := true }

/-- Claim C8, counterexample: with a help request recorded, `build` returns
the help short-circuit and raises no INI-file error even though the
INI-path cell holds the non-empty value `"NOPE"` and no such file exists —
the claim as stated ("for every registry … raises IniFileError") predicts
an INI-file error here. -/
theorem c8_counterexample :
    iniPathValue c8Reg = "NOPE" ∧
    List.lookup (iniPathValue c8Reg) ([] : Fs) = none ∧
    buildInternal [] c8Reg = .ok (c8Reg, true) := by
  exact ⟨rfl, rfl, rfl⟩

/-- Claim C8 as amended: unless the parser layer has signalled a help
request (in which case `build` short-circuits), a registry whose INI-path
cell holds a non-empty value naming a file that does not exist makes
`build_internal` raise the INI-file error; when the INI-path value is
empty, no INI-file error is raised and the merge is skipped (the registry
is merely marked built). -/
theorem c8_inifile_error (fs : Fs) (R : Params) :
    (R.helpRequested = true → buildInternal fs R = .ok (R, true)) ∧
    (R.helpRequested = false → (inifileEntry R).hasValue = true → iniPathValue R ≠ "" →
      List.lookup (iniPathValue R) fs = none → buildInternal fs R = .error .iniFile) ∧
    (R.helpRequested = false → iniPathValue R = "" →
      buildInternal fs R = .ok ({ R with built := true }, false)) := by
  refine ⟨fun h => ?_, fun h hv hne hl => ?_, fun h he => ?_⟩
  · simp [buildInternal, h]
  · simp [buildInternal, h, hv, hne, hl]
  · simp [buildInternal, h, he]

theorem assignTo_parametersMap (R : Params) (nm v : String) :
    (assignTo R nm v).parametersMap = R.parametersMap := by
  unfold assignTo; split <;> rfl

theorem assignTo_helpRequested (R : Params) (nm v : String) :
    (assignTo R nm v).helpRequested = R.helpRequested := by
  unfold assignTo; split <;> rfl

theorem applyTokens_parametersMap :
    ∀ (ts : List String) (R : Params) (pf : Bool) (pend : Option String),
      (applyTokens ts R pf pend).parametersMap = R.parametersMap := by
  intro ts
  induction ts with
  | nil => intro R pf pend; rfl
  | cons t rest ih =>
    intro R pf pend
    unfold applyTokens
    split
    · exact ih ..
    · split
      · split
        · rw [ih ..]; exact assignTo_parametersMap ..
        · exact ih ..
      · split
        · rw [ih ..]; exact assignTo_parametersMap ..
        · split
          · exact ih ..
          · exact ih ..

theorem applyTokens_helpRequested :
    ∀ (ts : List String) (R : Params) (pf : Bool) (pend : Option String),
      (applyTokens ts R pf pend).helpRequested = R.helpRequested := by
  intro ts
  induction ts with
  | nil => intro R pf pend; rfl
  | cons t rest ih =>
    intro R pf pend
    unfold applyTokens
    split
    · exact ih ..
    · split
      · split
        · rw [ih ..]; exact assignTo_helpRequested ..
        · exact ih ..
      · split
        · rw [ih ..]; exact assignTo_helpRequested ..
        · split
          · exact ih ..
          · exact ih ..

theorem parsedState_parametersMap (R : Params) (tokens : List String) :
    (parsedState R tokens).parametersMap = R.parametersMap := by
  simp [parsedState, argsParse, applyTokens_parametersMap]

theorem parsedState_helpRequested (R : Params) (tokens : List String) :
    (parsedState R tokens).helpRequested = detectHelp tokens := by
  simp [parsedState, argsParse, applyTokens_helpRequested]

theorem buildInternal_flag (fs : Fs) (S : Params) (h : S.helpRequested = false) :
    ∀ p, buildInternal fs S = .ok p → p.2 = false := by
  intro p hp
  rw [buildInternal, if_neg (by simp [h])] at hp
  split at hp
  · split at hp
    · cases hp; rfl
    · cases hp
  · cases hp; rfl

/-- Claim C4, counterexample: on a registry with no parameters defined and
a command line of more than two tokens containing no help request, `parse`
returns `false` — the claim as stated predicts `true` whenever no help
request was detected. -/
theorem c4_counterexample :
    parseRet [] initParams ["test", "a", "b"] = some false ∧
    detectHelp ["test", "a", "b"] = false := by
  exact ⟨rfl, rfl⟩

/-- Claim C4 as amended: when `parse` returns, it returns `false` exactly
when the flag parser detected a help request or when command-line
parameters were supplied (more than two tokens) while no parameter had
been defined yet; and whenever a help request is present, `parse` returns
`false` without raising — even when defined parameters are unsatisfied and
even when the INI path is invalid, since the help request short-circuits
the build. -/
theorem c4_parse_return (fs : Fs) (R : Params) (tokens : List String) :
    (∀ b, parseRet fs R tokens = some b →
      (b = false ↔
        (detectHelp tokens = true ∨ (R.parametersMap = [] ∧ tokens.length > 2)))) ∧
    (detectHelp tokens = true → parseRet fs R tokens = some false) := by
  have hmap := parsedState_parametersMap R tokens
  have hhelp := parsedState_helpRequested R tokens
  constructor
  · intro b hb
    unfold parseRet parse at hb
    by_cases hc : ((parsedState R tokens).parametersMap.isEmpty
        && decide (tokens.length > 2)) = true
    · rw [if_pos hc] at hb
      simp only [Option.some.injEq] at hb
      cases hb
      simp only [Bool.and_eq_true, List.isEmpty_iff, decide_eq_true_eq, hmap] at hc
      simp [hc]
    · rw [if_neg hc] at hb
      by_cases hh : detectHelp tokens = true
      · rw [buildInternal, if_pos (hhelp.trans hh)] at hb
        simp only [map_okE, Option.some.injEq] at hb
        cases hb
        simp [hh]
      · have hh' : (parsedState R tokens).helpRequested = false := by
          rw [hhelp]; revert hh; cases detectHelp tokens <;> simp
        simp only [Bool.and_eq_true, List.isEmpty_iff, decide_eq_true_eq, hmap,
          not_and] at hc
        have hb' : b = true := by
          cases hbd : buildInternal fs (parsedState R tokens) with
          | error e => rw [hbd] at hb; cases hb
          | ok p =>
            rw [hbd] at hb
            simp only [map_okE, Option.some.injEq] at hb
            rw [← hb, buildInternal_flag fs (parsedState R tokens) hh' p hbd]
            rfl
        cases hb'
        simp only [Bool.true_eq_false, false_iff]
        intro hdis
        rcases hdis with hd | ⟨hm, hl⟩
        · exact absurd hd hh
        · exact absurd hl (hc hm)
  · intro hh
    unfold parseRet parse
    by_cases hc : ((parsedState R tokens).parametersMap.isEmpty
        && decide (tokens.length > 2)) = true
    · rw [if_pos hc]
    · rw [if_neg hc, buildInternal, if_pos (hhelp.trans hh)]
      rfl

theorem c4_parse_return_witness :
    parseRet [] sampleReg ["test", "-?"] = some false ∧
    (true = false ↔
      (detectHelp ["test"] = true ∨
        (sampleReg.parametersMap = [] ∧ (["test"] : List String).length > 2))) := by
  exact ⟨(c4_parse_return [] sampleReg ["test", "-?"]).2 rfl,
    (c4_parse_return [] sampleReg ["test"]).1 true rfl⟩

/-- All candidate names registered with an item have the requested type. -/
def typesOk (R : Params) (T : Ty) (names : List String) : Prop :=
  ∀ n ∈ names, ∀ it, itemOf R n = some it → it.argumentType = T

/-- All candidate names registered with an item resolve to cell `i`. -/
def agree (R : Params) (i : Nat) (names : List String) : Prop :=
  ∀ n ∈ names, ∀ it, itemOf R n = some it → it.entryId = i

/-- Any two registered candidate names resolve to the same cell. -/
def pairAgree (R : Params) (names : List String) : Prop :=
  ∀ n ∈ names, ∀ m ∈ names, ∀ it₁ it₂,
    itemOf R n = some it₁ → itemOf R m = some it₂ → it₁.entryId = it₂.entryId

theorem check_ok_forward (R : Params) (T : Ty) :
    ∀ (names : List String) (p : Option Nat),
      isOkE (checkRedefinition R T names p) = true →
      typesOk R T names ∧ (∀ pid, p = some pid → agree R pid names) ∧ pairAgree R names := by
  intro names
  induction names with
  | nil =>
    intro p _
    exact ⟨fun n hn => absurd hn (List.not_mem_nil n),
      fun pid _ n hn => absurd hn (List.not_mem_nil n),
      fun n hn => absurd hn (List.not_mem_nil n)⟩
  | cons n rest ih =>
    intro p h
    simp only [checkRedefinition] at h
    cases hn : itemOf R n with
    | none =>
      rw [hn] at h
      simp only [isOkE_map] at h
      obtain ⟨hA, hC, hP⟩ := ih p h
      refine ⟨?_, ?_, ?_⟩
      · intro x hx it' hit'
        rcases List.mem_cons.mp hx with rfl | hx'
        · rw [hn] at hit'; cases hit'
        · exact hA x hx' it' hit'
      · intro pid hpid x hx it' hit'
        rcases List.mem_cons.mp hx with rfl | hx'
        · rw [hn] at hit'; cases hit'
        · exact hC pid hpid x hx' it' hit'
      · intro x hx y hy it₁ it₂ h₁ h₂
        rcases List.mem_cons.mp hx with rfl | hx'
        · rw [hn] at h₁; cases h₁
        · rcases List.mem_cons.mp hy with rfl | hy'
          · rw [hn] at h₂; cases h₂
          · exact hP x hx' y hy' it₁ it₂ h₁ h₂
    | some it =>
      rw [hn] at h
      dsimp only at h
      have hinj : ∀ it', itemOf R n = some it' → it' = it := by
        intro it' h'
        rw [hn] at h'
        exact (Option.some.inj h').symm
      by_cases hT : it.argumentType = T
      case neg =>
        rw [if_pos (by simp [hT])] at h
        cases h
      case pos =>
        rw [if_neg (by simp [hT])] at h
        have main : ∀ (q : Option Nat), isOkE (checkRedefinition R T rest q) = true →
            agree R it.entryId rest →
            typesOk R T (n :: rest) ∧ pairAgree R (n :: rest) := by
          intro q hq hAg
          obtain ⟨hA, _, hP⟩ := ih q hq
          constructor
          · intro x hx it' hit'
            rcases List.mem_cons.mp hx with rfl | hx'
            · rw [hinj it' hit', hT]
            · exact hA x hx' it' hit'
          · intro x hx y hy it₁ it₂ h₁ h₂
            rcases List.mem_cons.mp hx with rfl | hx'
            · rcases List.mem_cons.mp hy with rfl | hy'
              · rw [hinj it₁ h₁, hinj it₂ h₂]
              · rw [hinj it₁ h₁, hAg y hy' it₂ h₂]
            · rcases List.mem_cons.mp hy with rfl | hy'
              · rw [hinj it₂ h₂, hAg x hx' it₁ h₁]
              · exact hP x hx' y hy' it₁ it₂ h₁ h₂
        cases p with
        | none =>
          dsimp only at h
          obtain ⟨hA, hC, hP⟩ := ih _ h
          have hAg : agree R it.entryId rest := hC _ rfl
          obtain ⟨hA', hP'⟩ := main _ h hAg
          refine ⟨hA', ?_, hP'⟩
          intro pid hpid
          cases hpid
        | some pid =>
          dsimp only at h
          by_cases he : it.entryId = pid
          case neg =>
            rw [if_pos (by simp [he])] at h
            cases h
          case pos =>
            rw [if_neg (by simp [he])] at h
            obtain ⟨hA, hC, hP⟩ := ih _ h
            have hAg : agree R pid rest := hC _ rfl
            obtain ⟨hA', hP'⟩ := main _ h (he ▸ hAg)
            refine ⟨hA', ?_, hP'⟩
            intro pid' hpid' x hx it' hit'
            cases Option.some.inj hpid'
            rcases List.mem_cons.mp hx with rfl | hx'
            · rw [hinj it' hit']; exact he
            · exact hAg x hx' it' hit'

theorem check_ok_backward (R : Params) (T : Ty) :
    ∀ (names : List String) (p : Option Nat),
      typesOk R T names → pairAgree R names →
      (∀ pid, p = some pid → agree R pid names) →
      isOkE (checkRedefinition R T names p) = true := by
  intro names
  induction names with
  | nil => intro p _ _ _; rfl
  | cons n rest ih =>
    intro p hA hP hC
    have hA' : typesOk R T rest := fun x hx => hA x (List.mem_cons_of_mem n hx)
    have hP' : pairAgree R rest := fun x hx y hy =>
      hP x (List.mem_cons_of_mem n hx) y (List.mem_cons_of_mem n hy)
    simp only [checkRedefinition]
    cases hn : itemOf R n with
    | none =>
      dsimp only
      rw [isOkE_map]
      refine ih p hA' hP' ?_
      intro pid hpid x hx
      exact hC pid hpid x (List.mem_cons_of_mem n hx)
    | some it =>
      dsimp only
      have hT : it.argumentType = T := hA n (List.mem_cons_self n rest) it hn
      rw [if_neg (by simp [hT])]
      have hAg : agree R it.entryId rest := by
        intro x hx it' hit'
        exact hP x (List.mem_cons_of_mem n hx) n (List.mem_cons_self n rest) it' it hit' hn
      cases p with
      | none =>
        refine ih _ hA' hP' ?_
        intro pid hpid
        cases Option.some.inj hpid
        exact hAg
      | some pid =>
        dsimp only
        have he : it.entryId = pid := hC pid rfl n (List.mem_cons_self n rest) it hn
        rw [if_neg (by simp [he])]
        refine ih _ hA' hP' ?_
        intro pid' hpid'
        cases Option.some.inj hpid'
        exact he ▸ hAg

theorem check_error_redef (R : Params) (T : Ty) :
    ∀ (names : List String) (p : Option Nat) (e : PError),
      checkRedefinition R T names p = .error e → e = .redefinition := by
  intro names
  induction names with
  | nil => intro p e h; cases h
  | cons n rest ih =>
    intro p e h
    simp only [checkRedefinition] at h
    cases hn : itemOf R n with
    | none =>
      rw [hn] at h
      dsimp only at h
      cases hr : checkRedefinition R T rest p with
      | ok v => rw [hr, map_okE] at h; cases h
      | error e' =>
        rw [hr, map_errE] at h
        injection h with he
        subst he
        exact ih p e' hr
    | some it =>
      rw [hn] at h
      dsimp only at h
      by_cases hT : it.argumentType = T
      case neg =>
        rw [if_pos (by simp [hT])] at h
        cases h; rfl
      case pos =>
        rw [if_neg (by simp [hT])] at h
        cases p with
        | none => exact ih _ e h
        | some pid =>
          dsimp only at h
          by_cases he : it.entryId = pid
          case neg =>
            rw [if_pos (by simp [he])] at h
            cases h; rfl
          case pos =>
            rw [if_neg (by simp [he])] at h
            exact ih _ e h

theorem define_check_error (R : Params) (T : Ty) (name descr : String)
    (d : Option Val) (hne : name ≠ "") :
    define R T name descr d = .error .redefinition ↔
      isOkE (checkRedefinition R T (split name) none) = false := by
  unfold define
  rw [if_neg hne]
  cases hc : checkRedefinition R T (split name) none with
  | error e =>
    have he := check_error_redef R T (split name) none e hc
    subst he
    simp [isOkE]
  | ok v =>
    obtain ⟨newNames, p⟩ := v
    cases hf : findFirstRegistered R (split name) with
    | none => simp [isOkE]
    | some pr => simp [isOkE]

/-- Claim C1: a `define` call with a non-empty name raises the
redefinition error exactly when (a) some candidate name in the split name
list is already registered with a declared type different from the
requested one, or (b) two already-registered candidate names resolve to
different underlying cells; the characterization quantifies over an
arbitrary registry state, so it holds regardless of the order in which
primary names and aliases were registered by earlier `define` calls. -/
theorem c1_redefinition_iff (R : Params) (T : Ty) (name descr : String)
    (d : Option Val) (hne : name ≠ "") :
    define R T name descr d = .error .redefinition ↔
      ((∃ n ∈ split name, ∃ it, itemOf R n = some it ∧ it.argumentType ≠ T) ∨
       (∃ n ∈ split name, ∃ m ∈ split name, ∃ it₁ it₂,
          itemOf R n = some it₁ ∧ itemOf R m = some it₂ ∧ it₁.entryId ≠ it₂.entryId)) := by
  rw [define_check_error R T name descr d hne]
  constructor
  · intro h
    by_contra hcon
    push_neg at hcon
    obtain ⟨h₁, h₂⟩ := hcon
    have hA : typesOk R T (split name) := by
      intro n hn it hit
      exact h₁ n hn it hit
    have hP : pairAgree R (split name) := by
      intro n hn m hm it₁ it₂ h₁' h₂'
      exact h₂ n hn m hm it₁ it₂ h₁' h₂'
    rw [check_ok_backward R T (split name) none hA hP (fun pid hpid => by cases hpid)] at h
    cases h
  · intro h
    cases hb : isOkE (checkRedefinition R T (split name) none) with
    | false => rfl
    | true =>
      obtain ⟨hA, _, hP⟩ := check_ok_forward R T (split name) none hb
      rcases h with ⟨n, hn, it, hit, hT⟩ | ⟨n, hn, m, hm, it₁, it₂, h₁, h₂, he⟩
      · exact absurd (hA n hn it hit) hT
      · exact absurd (hP n hn m hm it₁ it₂ h₁ h₂) he

theorem c1_redefinition_iff_witness :
    define sampleReg .tLong "a" "redefined" none = .error .redefinition ∧
    define sampleReg .tInt "a,b" "merge of two cells" none = .error .redefinition := by
  constructor
  · refine (c1_redefinition_iff sampleReg .tLong "a" "redefined" none (by decide)).mpr ?_
    exact Or.inl ⟨"a", by decide, ⟨"a", [], 1, .tInt, false⟩, by decide, by decide⟩
  · refine (c1_redefinition_iff sampleReg .tInt "a,b" "merge of two cells" none (by decide)).mpr ?_
    exact Or.inr ⟨"a", by decide, "b", by decide, ⟨"a", [], 1, .tInt, false⟩,
      ⟨"b", [], 2, .tInt, false⟩, by decide, by decide, by decide⟩

theorem getElem?_some_lt {α : Type} (l : List α) (i : Nat) (a : α)
    (h : l[i]? = some a) : i < l.length := by
  by_contra hge
  rw [List.getElem?_eq_none (by omega)] at h
  cases h

/-- The textual value the INI-merge loop stores first into cell `i`: walk
the name bindings in map order; the first binding resolving to cell `i`
whose key (`'.'` replaced by `':'`) has a valid document value yields that
value. -/
def firstHit (items : List ParamsItem) (doc : IniDoc) (i : Nat) :
    List (String × Nat) → Option String
  | [] => none
  | b :: rest =>
    match items[b.2]? with
    | none => firstHit items doc i rest
    | some it =>
      if it.entryId = i then
        match List.lookup (iniKey b.1) doc with
        | some v => some v
        | none => firstHit items doc i rest
      else firstHit items doc i rest

theorem mergeFold_char (items : List ParamsItem) (doc : IniDoc) :
    ∀ (bs : List (String × Nat)) (E : List Entry) (i : Nat) (e : Entry),
      E[i]? = some e →
      (bs.foldl (mergeStep items doc) E)[i]? =
        some (if e.isSet then e
              else match firstHit items doc i bs with
                   | some v => e.cleanError.updateValue v
                   | none => e) := by
  intro bs
  induction bs with
  | nil =>
    intro E i e he
    simp only [List.foldl_nil, firstHit, he]
    cases e.isSet <;> simp
  | cons b rest ih =>
    intro E i e he
    rw [List.foldl_cons]
    cases hb : items[b.2]? with
    | none =>
      have hstep : mergeStep items doc E b = E := by
        unfold mergeStep; rw [hb]
      rw [hstep, ih E i e he]
      simp only [firstHit, hb]
    | some it =>
      by_cases hei : it.entryId = i
      · cases hset : e.isSet
        · cases hl : List.lookup (iniKey b.1) doc with
          | some v =>
            have hstep : mergeStep items doc E b = E.set i (e.cleanError.updateValue v) := by
              unfold mergeStep
              rw [hb]
              dsimp only
              rw [hei, he]
              dsimp only
              rw [if_neg (by simp [hset]), hl]
            have he' : (E.set i (e.cleanError.updateValue v))[i]? =
                some (e.cleanError.updateValue v) :=
              List.getElem?_set_eq_of_lt _ (getElem?_some_lt E i e he)
            rw [hstep, ih _ i _ he']
            simp [firstHit, hb, hei, hl, hset, Entry.isSet, Entry.updateValue, Entry.cleanError]
          | none =>
            have hstep : mergeStep items doc E b = E := by
              unfold mergeStep
              rw [hb]
              dsimp only
              rw [hei, he]
              dsimp only
              rw [if_neg (by simp [hset]), hl]
            rw [hstep, ih E i e he]
            simp [firstHit, hb, hei, hl, hset]
        · have hstep : mergeStep items doc E b = E := by
            unfold mergeStep
            rw [hb]
            dsimp only
            rw [hei, he]
            dsimp only
            rw [if_pos hset]
          rw [hstep, ih E i e he]
          simp [firstHit, hb, hei, hset]
      · have he' : (mergeStep items doc E b)[i]? = some e := by
          unfold mergeStep
          rw [hb]
          dsimp only
          cases hq : E[it.entryId]? with
          | none => exact he
          | some e₂ =>
            dsimp only
            cases hset₂ : e₂.isSet
            · rw [if_neg (show ¬(false = true) by simp)]
              cases hl : List.lookup (iniKey b.1) doc with
              | some v =>
                dsimp only
                rw [List.getElem?_set_ne (by omega : it.entryId ≠ i)]
                exact he
              | none => exact he
            · rw [if_pos rfl]
              exact he
        rw [ih _ i e he']
        simp only [firstHit, hb, if_neg hei]

/-- The registry of the C2 counterexample: one parameter with primary name
`"X"` and alias `"YYY"`, cell unset; the INI path `"f"` is set; the INI
document contains a value only under the alias-derived key `"YYY"`. -/
def c2Reg : Params :=
  { entries := [{ value := some "f", defaultVal := some "" }, {}],
    parametersMap := [("X", 0), ("YYY", 0)],
    items := [⟨"X", ["YYY"], 1, .tInt, false⟩],
    parsed := true }

/-- The file system of the C2 counterexample. -/
def c2Fs : Fs := [("f", [("YYY", "5")])]

/-- Claim C2, counterexample: the claim says the document is queried at the
key obtained from the parameter's *primary* name (here `"X"`, absent from
the document — so the cell would stay empty) and that a stored file value
does *not* mark the cell `is_set`.  The code queries the key of *every*
registered name bound to the cell, stores the alias-keyed value `"5"`, and
the public `is_set` query then reports the cell as set. -/
theorem c2_counterexample :
    List.lookup (iniKey "X") [("YYY", "5")] = none ∧
    ((buildInternal c2Fs c2Reg).toOption.map
      (fun p => ((p.1.entries[1]?).map Entry.value, isSetQuery p.1 "X"))) =
      some (some (some "5"), true) := by
  exact ⟨rfl, rfl⟩

/-- Claim C2 as amended: during build (help not requested, non-empty INI
path naming a loadable document), every name binding is visited once (the
C++ iterates its hash map in unspecified order; this model fixes
registration order); a binding whose cell is already set is skipped, so
cells holding a command-line value are never overwritten and an explicit
command-line value always takes precedence over the file; for an unset
cell, the document is queried at the key obtained by replacing every `.`
with `:` in each bound name (primary or alias), and the first valid value
found this way is stored into the cell — which marks the cell as set. -/
theorem c2_ini_merge (fs : Fs) (R : Params) (doc : IniDoc)
    (hh : R.helpRequested = false)
    (hv : (inifileEntry R).hasValue = true) (hne : iniPathValue R ≠ "")
    (hfs : List.lookup (iniPathValue R) fs = some doc) :
    buildInternal fs R = .ok ({ R with entries := iniMerge R doc, built := true }, false) ∧
    (∀ (i : Nat) (e : Entry), R.entries[i]? = some e → e.isSet = true →
      (iniMerge R doc)[i]? = some e) ∧
    (∀ (i : Nat) (e : Entry), R.entries[i]? = some e → e.isSet = false →
      firstHit R.items doc i R.parametersMap = none → (iniMerge R doc)[i]? = some e) ∧
    (∀ (i : Nat) (e : Entry) (v : String), R.entries[i]? = some e → e.isSet = false →
      firstHit R.items doc i R.parametersMap = some v →
      (iniMerge R doc)[i]? = some (e.cleanError.updateValue v) ∧
        (e.cleanError.updateValue v).isSet = true) := by
  refine ⟨?_, ?_, ?_, ?_⟩
  · unfold buildInternal
    rw [if_neg (by simp [hh]), if_pos ⟨hv, hne⟩, hfs]
  · intro i e he hset
    rw [iniMerge, mergeFold_char R.items doc R.parametersMap R.entries i e he]
    simp [hset]
  · intro i e he hset hfh
    rw [iniMerge, mergeFold_char R.items doc R.parametersMap R.entries i e he]
    simp [hset, hfh]
  · intro i e v he hset hfh
    rw [iniMerge, mergeFold_char R.items doc R.parametersMap R.entries i e he]
    constructor
    · simp [hset, hfh]
    · simp [Entry.isSet, Entry.updateValue]

theorem c2_ini_merge_witness :
    buildInternal [("g", [("AA", "123")])]
        { entries := [{ value := some "g", defaultVal := some "" }, {}, { value := some "33" }],
          parametersMap := [("AA", 0), ("BB", 1)],
          items := [⟨"AA", [], 1, .tInt, false⟩, ⟨"BB", [], 2, .tInt, false⟩],
          parsed := true } =
      .ok ({ entries := [{ value := some "g", defaultVal := some "" },
                         { value := some "123" }, { value := some "33" }],
             parametersMap := [("AA", 0), ("BB", 1)],
             items := [⟨"AA", [], 1, .tInt, false⟩, ⟨"BB", [], 2, .tInt, false⟩],
             parsed := true, built := true }, false) ∧
    (iniMerge { entries := [{ value := some "g", defaultVal := some "" }, {}, { value := some "33" }],
                parametersMap := [("AA", 0), ("BB", 1)],
                items := [⟨"AA", [], 1, .tInt, false⟩, ⟨"BB", [], 2, .tInt, false⟩],
                parsed := true } [("AA", "123")])[2]? = some { value := some "33" } := by
  constructor
  · have h := (c2_ini_merge [("g", [("AA", "123")])]
      { entries := [{ value := some "g", defaultVal := some "" }, {}, { value := some "33" }],
        parametersMap := [("AA", 0), ("BB", 1)],
        items := [⟨"AA", [], 1, .tInt, false⟩, ⟨"BB", [], 2, .tInt, false⟩],
        parsed := true } [("AA", "123")] rfl rfl (by decide) rfl).1
    exact h.trans (by rfl)
  · exact (c2_ini_merge [("g", [("AA", "123")])]
      { entries := [{ value := some "g", defaultVal := some "" }, {}, { value := some "33" }],
        parametersMap := [("AA", 0), ("BB", 1)],
        items := [⟨"AA", [], 1, .tInt, false⟩, ⟨"BB", [], 2, .tInt, false⟩],
        parsed := true } [("AA", "123")] rfl rfl (by decide) rfl).2.1 2
      { value := some "33" } rfl rfl

theorem findFirstRegistered_some (R : Params) :
    ∀ (names : List String) (i : Nat) (it : ParamsItem),
      findFirstRegistered R names = some (i, it) → R.items[i]? = some it := by
  intro names
  induction names with
  | nil => intro i it h; cases h
  | cons n rest ih =>
    intro i it h
    simp only [findFirstRegistered] at h
    cases hl : lookupId R n with
    | none => rw [hl] at h; exact ih i it h
    | some j =>
      rw [hl] at h
      dsimp only at h
      cases hj : R.items[j]? with
      | none => rw [hj] at h; exact ih i it h
      | some it' =>
        rw [hj] at h
        dsimp only at h
        cases h
        exact hj

/-- Claim C5: (first conjunct) a `define` call whose candidate list is a
single already-registered name of the same declared type never raises, no
matter how the registry got into its current state; (second conjunct) any
merging `define` call reuses the first existing name's item: the resulting
item keeps every previously attached alias and extends the alias list with
exactly the new (not yet registered) names of the call, and its
`is_optional` flag becomes the old flag `||` "this call supplies a default"
— so optionality is upgraded when a default appears and, once `true`, can
never return to `false`. -/
theorem c5_define_merge (R : Params) (T : Ty) (name descr : String)
    (d : Option Val) (hne : name ≠ "") :
    (∀ n it, split name = [n] → itemOf R n = some it → it.argumentType = T →
      isOkE (define R T name descr d) = true) ∧
    (∀ newNames pid itemId it,
      checkRedefinition R T (split name) none = .ok (newNames, some pid) →
      findFirstRegistered R (split name) = some (itemId, it) →
      ∃ R', define R T name descr d = .ok R' ∧
        R'.items[itemId]? = some { it with optional := it.optional || d.isSome,
                                           aka := it.aka ++ newNames }) := by
  constructor
  · intro n it hn hit hT
    unfold define
    rw [if_neg hne, hn]
    have hchk : checkRedefinition R T [n] none = .ok ([], some it.entryId) := by
      simp [checkRedefinition, hit, hT]
    rw [hchk]
    dsimp only
    obtain ⟨i, hi, hitems⟩ := Option.bind_eq_some.mp hit
    have hfind : findFirstRegistered R [n] = some (i, it) := by
      simp [findFirstRegistered, hi, hitems]
    rw [hfind]
    rfl
  · intro newNames pid itemId it hchk hfind
    unfold define
    rw [if_neg hne, hchk]
    dsimp only
    rw [hfind]
    dsimp only
    refine ⟨_, rfl, ?_⟩
    have hmem := findFirstRegistered_some R (split name) itemId it hfind
    have hlt : itemId < R.items.length := by
      cases hq : R.items[itemId]? with
      | none => rw [hq] at hmem; cases hmem
      | some v =>
        by_contra hge
        rw [List.getElem?_eq_none (by omega)] at hq
        cases hq
    exact List.getElem?_set_eq_of_lt _ hlt

theorem c5_define_merge_witness :
    isOkE (define sampleReg .tInt "a" "again" none) = true ∧
    (∃ R', define sampleReg .tInt "a,zz" "alias" none = .ok R' ∧
      R'.items[0]? = some ⟨"a", ["zz"], 1, .tInt, false⟩) := by
  constructor
  · exact (c5_define_merge sampleReg .tInt "a" "again" none (by decide)).1
      "a" ⟨"a", [], 1, .tInt, false⟩ rfl rfl rfl
  · exact (c5_define_merge sampleReg .tInt "a,zz" "alias" none (by decide)).2
      ["zz"] 1 0 ⟨"a", [], 1, .tInt, false⟩ rfl rfl

theorem c8_inifile_error_witness :
    buildInternal [] { c8Reg with helpRequested := false } = .error .iniFile ∧
    buildInternal [] initParams = .ok ({ initParams with built := true }, false) := by
  refine ⟨?_, ?_⟩
  · exact (c8_inifile_error [] { c8Reg with helpRequested := false }).2.1 rfl rfl
      (by decide) rfl
  · exact (c8_inifile_error [] initParams).2.2 rfl rfl

theorem parseNatAux_append (xs ys : List Char) :
    ∀ acc, parseNatAux acc (xs ++ ys) =
      match parseNatAux acc xs with
      | some b => parseNatAux b ys
      | none => none := by
  induction xs with
  | nil => intro acc; rfl
  | cons c cs ih =>
    intro acc
    simp only [List.cons_append, parseNatAux]
    cases digitVal c with
    | none => rfl
    | some d => exact ih _

theorem digitVal_digitChar (d : Nat) (hd : d < 10) : digitVal (digitChar d) = some d := by
  interval_cases d <;> decide

theorem natToChars_ne_nil (n : Nat) : natToChars n ≠ [] := by
  rw [natToChars]
  split <;> simp

theorem parseNatAux_natToChars (n : Nat) :
    ∀ acc, parseNatAux acc (natToChars n) =
      some (acc * 10 ^ (natToChars n).length + n) := by
  induction n using Nat.strong_induction_on with
  | _ n ih =>
    intro acc
    by_cases hn : n < 10
    · rw [natToChars, dif_pos hn]
      simp [parseNatAux, digitVal_digitChar n hn, Nat.mul_comm]
    · rw [natToChars, dif_neg hn]
      have hlt : n / 10 < n := Nat.div_lt_self (by omega) (by omega)
      rw [parseNatAux_append, ih (n / 10) hlt acc]
      have hd : n % 10 < 10 := Nat.mod_lt n (by omega)
      simp only [parseNatAux, digitVal_digitChar (n % 10) hd]
      have harith : 10 * (acc * 10 ^ (natToChars (n / 10)).length + n / 10) + n % 10 =
          acc * 10 ^ (natToChars (n / 10)).length.succ + n := by
        have := Nat.div_add_mod n 10
        rw [Nat.pow_succ]
        ring_nf
        omega
      simp [harith, Nat.succ_eq_add_one]

theorem parseNatChars_natToChars (n : Nat) : parseNatChars (natToChars n) = some n := by
  rw [parseNatChars, if_neg (by simp [natToChars_ne_nil n]), parseNatAux_natToChars n 0]
  simp

theorem natToChars_head_digit (n : Nat) :
    ∃ d cs, d < 10 ∧ natToChars n = digitChar d :: cs := by
  induction n using Nat.strong_induction_on with
  | _ n ih =>
    by_cases hn : n < 10
    · exact ⟨n, [], hn, by rw [natToChars, dif_pos hn]⟩
    · have hlt : n / 10 < n := Nat.div_lt_self (by omega) (by omega)
      obtain ⟨d, cs, hd, hcons⟩ := ih (n / 10) hlt
      exact ⟨d, cs ++ [digitChar (n % 10)], hd,
        by rw [natToChars, dif_neg hn, hcons]; rfl⟩

theorem digitChar_ne_minus (d : Nat) (hd : d < 10) : digitChar d ≠ '-' := by
  interval_cases d <;> decide

theorem parseIntStr_intToString (i : Int) : parseIntStr (intToString i) = some i := by
  by_cases hi : i < 0
  · rw [intToString, if_pos hi]
    show (parseNatChars (natToChars i.natAbs)).map (fun n => -(n : Int)) = some i
    rw [parseNatChars_natToChars]
    show some (-(i.natAbs : Int)) = some i
    congr 1
    omega
  · rw [intToString, if_neg hi]
    obtain ⟨d, cs, hd, hcons⟩ := natToChars_head_digit i.natAbs
    show (match natToChars i.natAbs with
      | [] => none
      | c :: rest =>
        if c = '-' then (parseNatChars rest).map (fun n => -(n : Int))
        else (parseNatChars (c :: rest)).map (fun n => (n : Int))) = some i
    rw [hcons]
    dsimp only
    rw [if_neg (digitChar_ne_minus d hd), ← hcons, parseNatChars_natToChars]
    show some ((i.natAbs : Int)) = some i
    congr 1
    omega

theorem splitCommaChars_single (xs : List Char) (h : ∀ c ∈ xs, c ≠ ',') :
    splitCommaChars xs = [xs] := by
  induction xs with
  | nil => rfl
  | cons c cs ih =>
    have hc := h c (List.mem_cons_self c cs)
    have ih' := ih (fun x hx => h x (List.mem_cons_of_mem c hx))
    simp only [splitCommaChars, if_neg hc]
    rw [ih']
    rfl

theorem splitCommaChars_append (xs ys : List Char) (h : ∀ c ∈ xs, c ≠ ',') :
    splitCommaChars (xs ++ ',' :: ys) = xs :: splitCommaChars ys := by
  induction xs with
  | nil => rfl
  | cons c cs ih =>
    have hc := h c (List.mem_cons_self c cs)
    have ih' := ih (fun x hx => h x (List.mem_cons_of_mem c hx))
    simp only [List.cons_append, splitCommaChars, if_neg hc]
    have ih2 : splitCommaChars (cs.append (',' :: ys)) = cs :: splitCommaChars ys := ih'
    rw [ih2]
    rfl

theorem splitCommaChars_joinCommaChars :
    ∀ (l : List (List Char)), l ≠ [] → (∀ xs ∈ l, ∀ c ∈ xs, c ≠ ',') →
      splitCommaChars (joinCommaChars l) = l := by
  intro l
  induction l with
  | nil => intro h _; exact absurd rfl h
  | cons x r ih =>
    intro _ h
    cases r with
    | nil =>
      show splitCommaChars (joinCommaChars [x]) = [x]
      rw [joinCommaChars]
      exact splitCommaChars_single x (h x (List.mem_cons_self x []))
    | cons y r' =>
      show splitCommaChars (x ++ ',' :: joinCommaChars (y :: r')) = x :: y :: r'
      rw [splitCommaChars_append x _ (h x (List.mem_cons_self x _)),
        ih (by simp) (fun xs hxs => h xs (List.mem_cons_of_mem x hxs))]

/-- The side condition under which a sequence value's comma-joined textual
form is unambiguous: the sequence is non-empty and no element contains the
`,` delimiter or surrounding whitespace that the read-side trimming would
strip.  Scalar, string and enumeration values have no side condition. -/
def okVal : Val → Prop
  | .vVecStr l => l ≠ [] ∧ ∀ s ∈ l, (∀ c ∈ s.data, c ≠ ',') ∧ trimChars s.data = s.data
  | _ => True

theorem convert_serialize (v : Val) (hok : okVal v) :
    convertVal (valTy v) (serializeVal v) = .ok v := by
  cases v with
  | vInt i => simp [convertVal, valTy, serializeVal, parseIntStr_intToString]
  | vLong i => simp [convertVal, valTy, serializeVal, parseIntStr_intToString]
  | vStr s => rfl
  | vEnum s => rfl
  | vVecStr l =>
    obtain ⟨hne, hel⟩ := hok
    show Except.ok (Val.vVecStr
      ((splitCommaChars (joinCommaChars (l.map String.data))).map
        (fun cs => String.mk (trimChars cs)))) = Except.ok (Val.vVecStr l)
    rw [splitCommaChars_joinCommaChars (l.map String.data) (by simpa using hne)
      (by intro xs hxs c hc
          obtain ⟨s, hs, rfl⟩ := List.mem_map.mp hxs
          exact (hel s hs).1 c hc)]
    rw [List.map_map]
    have hmap : l.map ((fun cs => String.mk (trimChars cs)) ∘ String.data) = l := by
      have hfn : ∀ s ∈ l, ((fun cs => String.mk (trimChars cs)) ∘ String.data) s = id s := by
        intro s hs
        show String.mk (trimChars s.data) = s
        rw [(hel s hs).2]
      calc l.map ((fun cs => String.mk (trimChars cs)) ∘ String.data)
          = l.map id := List.map_congr_left hfn
        _ = l := List.map_id l
    rw [hmap]

/-- The registry of the C7 counterexample: one sequence-typed item bound to
cell 0. -/
def c7Reg : Params := { entries := [{}] }

/-- The item of the C7 counterexample. -/
def c7Item : ParamsItem := ⟨"V", [], 0, .tVecString, false⟩

/-- Claim C7, counterexample: assigning the one-element sequence value
`["a,b"]` (a value of the entry's declared sequence type) re-serializes it
to the comma-joined text `a,b`; reading the entry back at the declared
type splits on the fixed `,` delimiter and returns the two-element
sequence `["a", "b"]`, not the assigned value — the assign-then-read
round-trip the claim states for *every* value of the declared type fails
for sequence values whose textual form is ambiguous. -/
theorem c7_counterexample :
    readVal (assignVal c7Reg c7Item (.vVecStr ["a,b"])) c7Item .tVecString =
      .ok (.vVecStr ["a", "b"]) ∧
    Val.vVecStr ["a", "b"] ≠ .vVecStr ["a,b"] := by
  exact ⟨rfl, by decide⟩

/-- Claim C7 as amended: assigning a value `v` of the entry's declared type
re-serializes `v` to text, stores it as the cell's raw value, and clears
any prior error flag on the cell; a subsequent read of the entry at the
declared type returns `v`, provided `v` is not a sequence whose textual
form is ambiguous (an empty sequence, or an element containing the `,`
delimiter or surrounding whitespace). -/
theorem c7_assign_read (R : Params) (it : ParamsItem) (v : Val) (e : Entry)
    (he : R.entries[it.entryId]? = some e) (hty : valTy v = it.argumentType)
    (hok : okVal v) :
    (entryD (assignVal R it v) it).value = some (serializeVal v) ∧
    (entryD (assignVal R it v) it).error = none ∧
    readVal (assignVal R it v) it it.argumentType = .ok v := by
  have hset : (assignVal R it v).entries =
      R.entries.set it.entryId (e.updateValue (serializeVal v)) := by
    rw [assignVal, he]
  have hget : (assignVal R it v).entries[it.entryId]? =
      some (e.updateValue (serializeVal v)) := by
    rw [hset]
    exact List.getElem?_set_eq_of_lt _ (getElem?_some_lt _ _ _ he)
  have hentry : entryD (assignVal R it v) it = e.updateValue (serializeVal v) := by
    rw [entryD, hget]
    rfl
  refine ⟨by rw [hentry]; rfl, by rw [hentry]; rfl, ?_⟩
  rw [readVal, hentry]
  show (match some (serializeVal v) with
    | some s => convertVal it.argumentType s
    | none => .ok (defaultOfTy it.argumentType)) = .ok v
  dsimp only
  rw [← hty]
  exact convert_serialize v hok

theorem c7_assign_read_witness :
    (entryD (assignVal { entries := [{ error := some "bad" }] } ⟨"a", [], 0, .tInt, false⟩
        (.vInt (-45))) ⟨"a", [], 0, .tInt, false⟩).value = some (serializeVal (.vInt (-45))) ∧
    (entryD (assignVal { entries := [{ error := some "bad" }] } ⟨"a", [], 0, .tInt, false⟩
        (.vInt (-45))) ⟨"a", [], 0, .tInt, false⟩).error = none ∧
    readVal (assignVal { entries := [{ error := some "bad" }] } ⟨"a", [], 0, .tInt, false⟩
        (.vInt (-45))) ⟨"a", [], 0, .tInt, false⟩ .tInt = .ok (.vInt (-45)) := by
  exact c7_assign_read { entries := [{ error := some "bad" }] } ⟨"a", [], 0, .tInt, false⟩
    (.vInt (-45)) { error := some "bad" } rfl rfl trivial

theorem dq_ne_space : dq ≠ ' ' := by decide

theorem sq_ne_space : sq ≠ ' ' := by decide

theorem dq_ne_sq : dq ≠ sq := by decide

/-- `true` when the character occurs an odd number of times. -/
def oddCount (c : Char) (cs : List Char) : Bool := decide (cs.count c % 2 = 1)

theorem oddCount_nil (c : Char) : oddCount c [] = false := rfl

theorem oddCount_cons (x c : Char) (cs : List Char) :
    oddCount x (c :: cs) = Bool.xor (decide (c = x)) (oddCount x cs) := by
  by_cases h : c = x
  · subst h
    have hmod : ((cs.count c + 1) % 2 = 1) ↔ ¬(cs.count c % 2 = 1) := by omega
    simp [oddCount, List.count_cons_self, hmod]
    rcases Nat.mod_two_eq_zero_or_one (cs.count c) with h2 | h2 <;> simp [h2]
  · simp [oddCount, List.count_cons_of_ne (Ne.symm h), h]

theorem tokStep_inD (st : TokState) (c : Char) :
    (tokStep st c).inD = Bool.xor st.inD (decide (c = dq)) := by
  simp only [tokStep, pushC]
  split_ifs <;> simp_all [dq_ne_sq, Ne.symm dq_ne_sq]

theorem tokStep_inS (st : TokState) (c : Char) :
    (tokStep st c).inS = Bool.xor st.inS (decide (c = sq)) := by
  simp only [tokStep, pushC]
  split_ifs <;> simp_all [dq_ne_sq, Ne.symm dq_ne_sq]

theorem tokFold_inD : ∀ (cs : List Char) (st : TokState),
    (tokFold st cs).inD = Bool.xor st.inD (oddCount dq cs) := by
  intro cs
  induction cs with
  | nil => intro st; simp [tokFold, oddCount]
  | cons c cs' ih =>
    intro st
    have h1 : tokFold st (c :: cs') = tokFold (tokStep st c) cs' := rfl
    rw [h1, ih, tokStep_inD, oddCount_cons]
    cases st.inD <;> cases hc : decide (c = dq) <;> cases ho : oddCount dq cs' <;> rfl

theorem tokFold_inS : ∀ (cs : List Char) (st : TokState),
    (tokFold st cs).inS = Bool.xor st.inS (oddCount sq cs) := by
  intro cs
  induction cs with
  | nil => intro st; simp [tokFold, oddCount]
  | cons c cs' ih =>
    intro st
    have h1 : tokFold st (c :: cs') = tokFold (tokStep st c) cs' := rfl
    rw [h1, ih, tokStep_inS, oddCount_cons]
    cases st.inS <;> cases hc : decide (c = sq) <;> cases ho : oddCount sq cs' <;> rfl

theorem tokStep_regular (acc : List (List Char)) (t : List Char) (iS iD : Bool) (c : Char)
    (h1 : c ≠ ' ') (h2 : c ≠ dq) (h3 : c ≠ sq) :
    tokStep ⟨acc, some t, iS, iD, false⟩ c = ⟨acc, some (t ++ [c]), iS, iD, false⟩ := by
  simp [tokStep, pushC, h1, h2, h3]

theorem tokStep_space (acc : List (List Char)) (t : List Char) :
    tokStep ⟨acc, some t, false, false, false⟩ ' ' = ⟨acc ++ [t], none, false, false, true⟩ := by
  simp [tokStep, pushC, dq_ne_space.symm, sq_ne_space.symm]

theorem tokStep_open (acc : List (List Char)) (c : Char)
    (h1 : c ≠ ' ') (h2 : c ≠ dq) (h3 : c ≠ sq) :
    tokStep ⟨acc, none, false, false, true⟩ c = ⟨acc, some [c], false, false, false⟩ := by
  simp [tokStep, pushC, h1, h2, h3]

theorem tokStep_open_dq (acc : List (List Char)) :
    tokStep ⟨acc, none, false, false, true⟩ dq = ⟨acc, some [dq], false, true, false⟩ := by
  simp [tokStep, pushC, dq_ne_space]

theorem tokStep_open_sq (acc : List (List Char)) :
    tokStep ⟨acc, none, false, false, true⟩ sq = ⟨acc, some [sq], true, false, false⟩ := by
  simp [tokStep, pushC, sq_ne_space, Ne.symm dq_ne_sq]

theorem tokStep_span_dq (acc : List (List Char)) (t : List Char) (iS : Bool) (c : Char)
    (h2 : c ≠ dq) (h3 : c ≠ sq) :
    tokStep ⟨acc, some t, iS, true, false⟩ c = ⟨acc, some (t ++ [c]), iS, true, false⟩ := by
  simp [tokStep, pushC, h2, h3]

theorem tokStep_span_dq_sq (acc : List (List Char)) (t : List Char) (iS : Bool) :
    tokStep ⟨acc, some t, iS, true, false⟩ sq = ⟨acc, some (t ++ [sq]), !iS, true, false⟩ := by
  simp [tokStep, pushC, sq_ne_space, Ne.symm dq_ne_sq]

theorem tokStep_span_sq (acc : List (List Char)) (t : List Char) (iD : Bool) (c : Char)
    (h2 : c ≠ dq) (h3 : c ≠ sq) :
    tokStep ⟨acc, some t, true, iD, false⟩ c = ⟨acc, some (t ++ [c]), true, iD, false⟩ := by
  simp [tokStep, pushC, h2, h3]

theorem tokStep_span_sq_dq (acc : List (List Char)) (t : List Char) (iD : Bool) :
    tokStep ⟨acc, some t, true, iD, false⟩ dq = ⟨acc, some (t ++ [dq]), true, !iD, false⟩ := by
  simp [tokStep, pushC, dq_ne_space]

theorem tokStep_close_dq (acc : List (List Char)) (t : List Char) :
    tokStep ⟨acc, some t, false, true, false⟩ dq = ⟨acc, some (t ++ [dq]), false, false, false⟩ := by
  simp [tokStep, pushC, dq_ne_space]

theorem tokStep_close_sq (acc : List (List Char)) (t : List Char) :
    tokStep ⟨acc, some t, true, false, false⟩ sq = ⟨acc, some (t ++ [sq]), false, false, false⟩ := by
  simp [tokStep, pushC, sq_ne_space, Ne.symm dq_ne_sq]

theorem tokFold_cons (st : TokState) (c : Char) (cs : List Char) :
    tokFold st (c :: cs) = tokFold (tokStep st c) cs := rfl

theorem tokFold_regular : ∀ (cs : List Char) (acc : List (List Char)) (t : List Char)
    (iS iD : Bool), (∀ c ∈ cs, c ≠ ' ' ∧ c ≠ dq ∧ c ≠ sq) →
    tokFold ⟨acc, some t, iS, iD, false⟩ cs = ⟨acc, some (t ++ cs), iS, iD, false⟩ := by
  intro cs
  induction cs with
  | nil => intro acc t iS iD _; simp [tokFold]
  | cons c cs' ih =>
    intro acc t iS iD h
    have hc := h c (List.mem_cons_self c cs')
    rw [tokFold_cons, tokStep_regular acc t iS iD c hc.1 hc.2.1 hc.2.2,
      ih acc (t ++ [c]) iS iD (fun x hx => h x (List.mem_cons_of_mem c hx))]
    simp

theorem tokFold_span_dq : ∀ (cs : List Char) (acc : List (List Char)) (t : List Char)
    (iS : Bool), (∀ c ∈ cs, c ≠ dq) →
    tokFold ⟨acc, some t, iS, true, false⟩ cs =
      ⟨acc, some (t ++ cs), Bool.xor iS (oddCount sq cs), true, false⟩ := by
  intro cs
  induction cs with
  | nil => intro acc t iS _; simp [tokFold, oddCount]
  | cons c cs' ih =>
    intro acc t iS h
    have hcd := h c (List.mem_cons_self c cs')
    by_cases hcs : c = sq
    · subst hcs
      rw [tokFold_cons, tokStep_span_dq_sq,
        ih acc (t ++ [sq]) (!iS) (fun x hx => h x (List.mem_cons_of_mem sq hx))]
      simp only [oddCount_cons, List.append_assoc, List.cons_append, List.nil_append]
      cases iS <;> cases ho : oddCount sq cs' <;> simp [ho]
    · rw [tokFold_cons, tokStep_span_dq acc t iS c hcd hcs,
        ih acc (t ++ [c]) iS (fun x hx => h x (List.mem_cons_of_mem c hx))]
      simp [oddCount_cons, hcs]

theorem tokFold_span_sq : ∀ (cs : List Char) (acc : List (List Char)) (t : List Char)
    (iD : Bool), (∀ c ∈ cs, c ≠ sq) →
    tokFold ⟨acc, some t, true, iD, false⟩ cs =
      ⟨acc, some (t ++ cs), true, Bool.xor iD (oddCount dq cs), false⟩ := by
  intro cs
  induction cs with
  | nil => intro acc t iD _; simp [tokFold, oddCount]
  | cons c cs' ih =>
    intro acc t iD h
    have hcs := h c (List.mem_cons_self c cs')
    by_cases hcd : c = dq
    · subst hcd
      rw [tokFold_cons, tokStep_span_sq_dq,
        ih acc (t ++ [dq]) (!iD) (fun x hx => h x (List.mem_cons_of_mem dq hx))]
      simp only [oddCount_cons, List.append_assoc, List.cons_append, List.nil_append]
      cases iD <;> cases ho : oddCount dq cs' <;> simp [ho]
    · rw [tokFold_cons, tokStep_span_sq acc t iD c hcd hcs,
        ih acc (t ++ [c]) iD (fun x hx => h x (List.mem_cons_of_mem c hx))]
      simp [oddCount_cons, hcd]

/-- Claim C6, counterexample: the tokenizer does *not* strip quote
characters.  On `a "b c"` the second token the code produces is `"b c"`
with the double quotes still in place, not the stripped `b c` the claim
predicts (the C++ loop only toggles the quote state and overwrites spaces;
the quote characters remain in the buffer and hence in the token). -/
theorem c6_counterexample :
    getArgcArgv "a \"b c\"" = .ok ["a", "\"b c\""] ∧ "\"b c\"" ≠ "b c" := by
  exact ⟨rfl, by decide⟩

/-- Claim C6 as amended: the tokenizer splits on unquoted spaces; a run of
spaces inside matching single or double quotes is preserved verbatim; the
quote characters are *kept* in the resulting token (not stripped) while
the rest of the token is unmodified, and quote characters of the other
kind inside a quoted span are likewise kept as literals (the span's
interior may contain any characters other than its own delimiter,
including spaces and balanced other-kind quotes — an odd number of
other-kind quotes leaves that quote open at end-of-string and is the error
case of the first conjunct); a string with an unmatched quote at
end-of-string — characterized by an odd number of single- or double-quote
characters after the first character — raises the string-parse error
instead of producing tokens. -/
theorem c6_tokenizer (s : String) :
    (getArgcArgv s = .error .strParse ↔
      ((oddCount sq s.data.tail) || (oddCount dq s.data.tail)) = true) ∧
    (∀ t₁ t₂ : List Char, t₁ ≠ [] → t₂ ≠ [] →
      (∀ c ∈ t₁, c ≠ ' ' ∧ c ≠ dq ∧ c ≠ sq) →
      (∀ c ∈ t₂, c ≠ ' ' ∧ c ≠ dq ∧ c ≠ sq) →
      getArgcArgv (String.mk (t₁ ++ ' ' :: t₂)) = .ok [String.mk t₁, String.mk t₂]) ∧
    (∀ t₁ u : List Char, t₁ ≠ [] →
      (∀ c ∈ t₁, c ≠ ' ' ∧ c ≠ dq ∧ c ≠ sq) → (∀ c ∈ u, c ≠ dq) →
      oddCount sq u = false →
      getArgcArgv (String.mk (t₁ ++ ' ' :: dq :: (u ++ [dq]))) =
        .ok [String.mk t₁, String.mk (dq :: (u ++ [dq]))]) ∧
    (∀ t₁ u : List Char, t₁ ≠ [] →
      (∀ c ∈ t₁, c ≠ ' ' ∧ c ≠ dq ∧ c ≠ sq) → (∀ c ∈ u, c ≠ sq) →
      oddCount dq u = false →
      getArgcArgv (String.mk (t₁ ++ ' ' :: sq :: (u ++ [sq]))) =
        .ok [String.mk t₁, String.mk (sq :: (u ++ [sq]))]) := by
  have hS0 : (tokStart s.data).inS = false := by cases s.data <;> rfl
  have hD0 : (tokStart s.data).inD = false := by cases s.data <;> rfl
  refine ⟨?_, ?_, ?_, ?_⟩
  · constructor
    · intro h
      unfold getArgcArgv at h
      by_cases hc : ((tokFold (tokStart s.data) s.data.tail).inS
          || (tokFold (tokStart s.data) s.data.tail).inD) = true
      · rw [tokFold_inS, tokFold_inD, hS0, hD0] at hc
        simpa using hc
      · rw [if_neg hc] at h
        cases h
    · intro h
      unfold getArgcArgv
      have hc : ((tokFold (tokStart s.data) s.data.tail).inS
          || (tokFold (tokStart s.data) s.data.tail).inD) = true := by
        rw [tokFold_inS, tokFold_inD, hS0, hD0]
        simpa using h
      rw [if_pos hc]
  · intro t₁ t₂ h1 h2 hreg1 hreg2
    obtain ⟨c, cs, rfl⟩ : ∃ c cs, t₁ = c :: cs := by
      cases t₁ with
      | nil => exact absurd rfl h1
      | cons a b => exact ⟨a, b, rfl⟩
    obtain ⟨d, ds, rfl⟩ : ∃ d ds, t₂ = d :: ds := by
      cases t₂ with
      | nil => exact absurd rfl h2
      | cons a b => exact ⟨a, b, rfl⟩
    have hd := hreg2 d (List.mem_cons_self d ds)
    unfold getArgcArgv
    have hfold : tokFold (tokStart (String.mk ((c :: cs) ++ ' ' :: d :: ds)).data)
        (String.mk ((c :: cs) ++ ' ' :: d :: ds)).data.tail =
        ⟨[[c] ++ cs], some ([d] ++ ds), false, false, false⟩ := by
      show tokFold ⟨[], some [c], false, false, false⟩ (cs ++ ' ' :: d :: ds) = _
      have hsplit : tokFold ⟨[], some [c], false, false, false⟩ (cs ++ ' ' :: d :: ds)
          = tokFold (tokFold ⟨[], some [c], false, false, false⟩ cs) (' ' :: d :: ds) := by
        unfold tokFold
        rw [List.foldl_append]
      rw [hsplit,
        tokFold_regular cs [] [c] false false
          (fun x hx => hreg1 x (List.mem_cons_of_mem c hx)),
        tokFold_cons, tokStep_space, tokFold_cons, tokStep_open _ d hd.1 hd.2.1 hd.2.2,
        tokFold_regular ds _ [d] false false
          (fun x hx => hreg2 x (List.mem_cons_of_mem d hx))]
      simp
    rw [hfold]
    rfl
  · intro t₁ u h1 hreg1 hq heven
    obtain ⟨c, cs, rfl⟩ : ∃ c cs, t₁ = c :: cs := by
      cases t₁ with
      | nil => exact absurd rfl h1
      | cons a b => exact ⟨a, b, rfl⟩
    unfold getArgcArgv
    have hflag : Bool.xor false (oddCount sq u) = false := by rw [heven]; rfl
    have hfold : tokFold (tokStart (String.mk ((c :: cs) ++ ' ' :: dq :: (u ++ [dq]))).data)
        (String.mk ((c :: cs) ++ ' ' :: dq :: (u ++ [dq]))).data.tail =
        ⟨[[c] ++ cs], some ([dq] ++ u ++ [dq]), false, false, false⟩ := by
      show tokFold ⟨[], some [c], false, false, false⟩ (cs ++ ' ' :: dq :: (u ++ [dq])) = _
      have hsplit : tokFold ⟨[], some [c], false, false, false⟩ (cs ++ ' ' :: dq :: (u ++ [dq]))
          = tokFold (tokFold ⟨[], some [c], false, false, false⟩ cs)
              (' ' :: dq :: (u ++ [dq])) := by
        unfold tokFold
        rw [List.foldl_append]
      have hsplit2 : ∀ st : TokState, tokFold st (u ++ [dq]) = tokFold (tokFold st u) [dq] := by
        intro st
        unfold tokFold
        rw [List.foldl_append]
      rw [hsplit,
        tokFold_regular cs [] [c] false false
          (fun x hx => hreg1 x (List.mem_cons_of_mem c hx)),
        tokFold_cons, tokStep_space, tokFold_cons, tokStep_open_dq,
        hsplit2, tokFold_span_dq u _ [dq] false hq, hflag, tokFold_cons, tokStep_close_dq]
      simp [tokFold]
    rw [hfold]
    rfl
  · intro t₁ u h1 hreg1 hq heven
    obtain ⟨c, cs, rfl⟩ : ∃ c cs, t₁ = c :: cs := by
      cases t₁ with
      | nil => exact absurd rfl h1
      | cons a b => exact ⟨a, b, rfl⟩
    unfold getArgcArgv
    have hflag : Bool.xor false (oddCount dq u) = false := by rw [heven]; rfl
    have hfold : tokFold (tokStart (String.mk ((c :: cs) ++ ' ' :: sq :: (u ++ [sq]))).data)
        (String.mk ((c :: cs) ++ ' ' :: sq :: (u ++ [sq]))).data.tail =
        ⟨[[c] ++ cs], some ([sq] ++ u ++ [sq]), false, false, false⟩ := by
      show tokFold ⟨[], some [c], false, false, false⟩ (cs ++ ' ' :: sq :: (u ++ [sq])) = _
      have hsplit : tokFold ⟨[], some [c], false, false, false⟩ (cs ++ ' ' :: sq :: (u ++ [sq]))
          = tokFold (tokFold ⟨[], some [c], false, false, false⟩ cs)
              (' ' :: sq :: (u ++ [sq])) := by
        unfold tokFold
        rw [List.foldl_append]
      have hsplit2 : ∀ st : TokState, tokFold st (u ++ [sq]) = tokFold (tokFold st u) [sq] := by
        intro st
        unfold tokFold
        rw [List.foldl_append]
      rw [hsplit,
        tokFold_regular cs [] [c] false false
          (fun x hx => hreg1 x (List.mem_cons_of_mem c hx)),
        tokFold_cons, tokStep_space, tokFold_cons, tokStep_open_sq,
        hsplit2, tokFold_span_sq u _ [sq] false hq, hflag, tokFold_cons, tokStep_close_sq]
      simp [tokFold]
    rw [hfold]
    rfl

theorem c6_tokenizer_witness :
    (getArgcArgv "a'" = .error .strParse ↔
      ((oddCount sq ("a'" : String).data.tail) || (oddCount dq ("a'" : String).data.tail)) = true) ∧
    getArgcArgv (String.mk (['a'] ++ ' ' :: ['b'])) = .ok [String.mk ['a'], String.mk ['b']] ∧
    getArgcArgv (String.mk (['a'] ++ ' ' :: dq :: ([' ', sq, 'b', sq] ++ [dq]))) =
      .ok [String.mk ['a'], String.mk (dq :: ([' ', sq, 'b', sq] ++ [dq]))] ∧
    getArgcArgv (String.mk (['a'] ++ ' ' :: sq :: ([' ', dq, 'c', dq] ++ [sq]))) =
      .ok [String.mk ['a'], String.mk (sq :: ([' ', dq, 'c', dq] ++ [sq]))] := by
  refine ⟨(c6_tokenizer "a'").1, ?_, ?_, ?_⟩
  · exact (c6_tokenizer "").2.1 ['a'] ['b'] (by decide) (by decide) (by decide) (by decide)
  · exact (c6_tokenizer "").2.2.1 ['a'] [' ', sq, 'b', sq] (by decide) (by decide)
      (by decide) (by decide)
  · exact (c6_tokenizer "").2.2.2 ['a'] [' ', dq, 'c', dq] (by decide) (by decide)
      (by decide) (by decide)

end GreenParams
